import Mathlib

/-!
Verification of the api-query harness (query scheduler, CSV result log,
log reconciler) against its natural-language specification.

The Rust sources are shallowly embedded: machine integers become `Nat`
with explicit `% 2 ^ w` where wrap-around can occur, fallible code
returns `Except`/`Option`, and strings are `List Char`.  Code external
to the repository (the HTTP client, the `csv` crate's quoting layer,
the `crc_fast` digest, floating point formatting) is modelled by
explicit parameters or simple computable stand-ins, noted at each
definition.
-/

namespace ApiQuery

/-- Character lists stand in for Rust strings (the `csv` crate's quoting
layer is external to the repository, so rows are modelled as lists of
fields, each field a list of characters). -/
abbrev Str := List Char

/-- `2 ^ 32`, the wrap-around modulus of Rust `u32`. -/
def U32 : Nat := 2 ^ 32

/-- `2 ^ 64`, the wrap-around modulus of Rust `u64` / 64-bit `usize`. -/
def U64 : Nat := 2 ^ 64

/-- From `src/types.rs`: `QueryReference`, a stable 0-based index
(`query_index: u32`) into the queries file. -/
structure QueryReference where
  query_index : Nat
deriving DecidableEq

/-- From `src/types.rs`: `QueryReferenceWithRepetition`, the pair of a
reference and its 0-based repetition counter (`repetition: u32`). -/
structure QueryReferenceWithRepetition where
  query_reference : QueryReference
  repetition : Nat
deriving DecidableEq

/-! ## QueryPlan (C1)

`src/bin/api-query.rs`, `query_references_with_repetitions`: walks the
(possibly shuffled) reference list and pairs each entry with the value
of a per-reference counter (`Vec<u32>`, one slot per corpus entry),
incrementing the counter afterwards.  The `u32` increment is modelled
with `% U32`. -/

/-- The loop body of `query_references_with_repetitions`: `counters` is
the `query_counters: Vec<u32>` state (length = number of queries in the
corpus; every index used by the program is in range). -/
def query_references_with_repetitions_go :
    List Nat → List QueryReference → List QueryReferenceWithRepetition
  | _, [] => []
  | counters, qr :: rest =>
    let i := qr.query_index
    let repetition := counters.getD i 0
    { query_reference := qr, repetition } ::
      query_references_with_repetitions_go
        (counters.set i ((repetition + 1) % U32)) rest

/-- `query_references_with_repetitions(queries, query_references)`:
`numQueries` stands for `queries.borrow_queries().len()`; the counter
vector starts as `vec![0].repeat(numQueries)`. -/
def query_references_with_repetitions (numQueries : Nat)
    (query_references : List QueryReference) :
    List QueryReferenceWithRepetition :=
  query_references_with_repetitions_go
    (List.replicate numQueries 0) query_references

/-- The plan reference list built in `main` (`Command::Iter`): the outer
loop runs `repeat` times, the inner loop pushes one reference per corpus
index, i.e. `repeatN` concatenated copies of `0, …, numQueries - 1`.
(`--randomize` shuffles this list afterwards; theorems quantify over an
arbitrary permutation.) -/
def iter_query_references (numQueries repeatN : Nat) : List QueryReference :=
  (List.replicate repeatN ((List.range numQueries).map
    (fun query_index => { query_index : QueryReference }))).flatten

/-- The repetition indices assigned to reference `q`, walked in final
plan order. -/
def repsOf (q : QueryReference) (l : List QueryReferenceWithRepetition) :
    List Nat :=
  l.filterMap (fun p => if p.query_reference = q then some p.repetition else none)

theorem repsOf_go (q : QueryReference) (refs : List QueryReference) :
    ∀ counters : List Nat, q.query_index < counters.length →
      counters.getD q.query_index 0 < U32 →
      repsOf q (query_references_with_repetitions_go counters refs) =
        (List.range (refs.countP (fun r => decide (r = q)))).map
          (fun j => (counters.getD q.query_index 0 + j) % U32) := by
  induction refs with
  | nil => intro counters _ _; simp [query_references_with_repetitions_go, repsOf]
  | cons r rest ih =>
    intro counters hlen hlt
    by_cases hrq : r = q
    · subst hrq
      have hget : (counters.set r.query_index
            ((counters.getD r.query_index 0 + 1) % U32)).getD r.query_index 0 =
          (counters.getD r.query_index 0 + 1) % U32 := by
        rw [List.getD_eq_getElem?_getD, List.getElem?_set_self (by simpa using hlen)]
        simp
      have hlen' : r.query_index <
          (counters.set r.query_index
            ((counters.getD r.query_index 0 + 1) % U32)).length := by
        simpa using hlen
      have htail := ih (counters.set r.query_index
        ((counters.getD r.query_index 0 + 1) % U32)) hlen'
        (by rw [hget]; exact Nat.mod_lt _ (by decide))
      rw [hget] at htail
      have hhead : repsOf r (query_references_with_repetitions_go counters (r :: rest)) =
          counters.getD r.query_index 0 ::
            repsOf r (query_references_with_repetitions_go
              (counters.set r.query_index
                ((counters.getD r.query_index 0 + 1) % U32)) rest) := by
        simp [query_references_with_repetitions_go, repsOf]
      rw [hhead, htail, List.countP_cons_of_pos _ _ (by simp),
        List.range_succ_eq_map]
      simp only [List.map_cons, List.map_map]
      congr 1
      · exact (Nat.mod_eq_of_lt hlt).symm
      · apply List.map_congr_left
        intro j _
        simp only [Function.comp]
        rw [Nat.mod_add_mod]
        congr 1
        omega
    · have hne : r.query_index ≠ q.query_index := by
        intro h
        exact hrq (by cases r; cases q; simpa using h)
      have hget : (counters.set r.query_index
            ((counters.getD r.query_index 0 + 1) % U32)).getD q.query_index 0 =
          counters.getD q.query_index 0 := by
        rw [List.getD_eq_getElem?_getD, List.getElem?_set_ne hne,
          ← List.getD_eq_getElem?_getD]
      have hlen' : q.query_index <
          (counters.set r.query_index
            ((counters.getD r.query_index 0 + 1) % U32)).length := by
        simpa using hlen
      have htail := ih (counters.set r.query_index
        ((counters.getD r.query_index 0 + 1) % U32)) hlen' (by rw [hget]; exact hlt)
      rw [hget] at htail
      have hhead : repsOf q (query_references_with_repetitions_go counters (r :: rest)) =
          repsOf q (query_references_with_repetitions_go
            (counters.set r.query_index
              ((counters.getD r.query_index 0 + 1) % U32)) rest) := by
        simp [query_references_with_repetitions_go, repsOf, hrq]
      rw [hhead, htail]
      simp [List.countP_cons, hrq]

theorem countP_range_self (N k : Nat) (hk : k < N) :
    (List.range N).countP (fun i => decide (i = k)) = 1 := by
  induction N with
  | zero => omega
  | succ n ih =>
    rw [List.range_succ, List.countP_append]
    by_cases h : k < n
    · rw [ih h]
      simp
      omega
    · have hkn : k = n := by omega
      subst hkn
      have : (List.range k).countP (fun i => decide (i = k)) = 0 := by
        rw [List.countP_eq_zero]
        intro a ha
        simp only [decide_eq_true_eq]
        exact Nat.ne_of_lt (List.mem_range.mp ha)
      rw [this]
      simp

theorem countP_iter_query_references (numQueries repeatN : Nat)
    (q : QueryReference) (hq : q.query_index < numQueries) :
    (iter_query_references numQueries repeatN).countP
      (fun r => decide (r = q)) = repeatN := by
  induction repeatN with
  | zero => simp [iter_query_references]
  | succ n ih =>
    rw [iter_query_references, List.replicate_succ, List.flatten_cons,
      List.countP_append]
    rw [iter_query_references] at ih
    rw [ih, List.countP_map]
    have : ((fun r => decide (r = q)) ∘
        (fun query_index => ({ query_index } : QueryReference))) =
        (fun i => decide (i = q.query_index)) := by
      funext i
      cases q
      simp [QueryReference.mk.injEq]
    rw [this, countP_range_self _ _ hq]
    omega

/-- C1: for every corpus of `N` queries and repeat factor `R`, in the
plan produced (with or without randomization — `refs` is an arbitrary
permutation of the reference list built in `main`) each `QueryReference`
occurs exactly `R` times and the repetition indices assigned to its
occurrences, walked in final plan order, are exactly `0, …, R−1` in
order — in particular the set `{0, …, R−1}`, each exactly once —
independent of shuffle order.  (`R ≤ 2^32` keeps the `u32` repetition
counter from wrapping.) -/
theorem claim_C1 (N R : Nat) (refs : List QueryReference)
    (hperm : refs.Perm (iter_query_references N R))
    (q : QueryReference) (hq : q.query_index < N) (hR : R ≤ U32) :
    repsOf q (query_references_with_repetitions N refs) = List.range R := by
  have hcount : refs.countP (fun r => decide (r = q)) = R :=
    (hperm.countP_eq _).trans (countP_iter_query_references N R q hq)
  have hbase := repsOf_go q refs (List.replicate N 0) (by simpa using hq)
    (by simp [List.getD_eq_getElem?_getD, List.getElem?_replicate, hq, U32])
  have hzero : (List.replicate N 0).getD q.query_index 0 = 0 := by
    simp [List.getD_eq_getElem?_getD, List.getElem?_replicate, hq]
  rw [hzero] at hbase
  rw [query_references_with_repetitions, hbase, hcount]
  have hcongr : ∀ j ∈ List.range R, (0 + j) % U32 = j := by
    intro j hj
    have : j < U32 := lt_of_lt_of_le (List.mem_range.mp hj) hR
    simp [Nat.mod_eq_of_lt this]
  rw [List.map_congr_left hcongr]
  simp

/-- Witness for C1: a concrete shuffled plan for `N = 2`, `R = 2`. -/
theorem claim_C1_witness :
    (([⟨1⟩, ⟨0⟩, ⟨0⟩, ⟨1⟩] : List QueryReference)).Perm
        (iter_query_references 2 2) ∧
      repsOf ⟨0⟩ (query_references_with_repetitions 2 [⟨1⟩, ⟨0⟩, ⟨0⟩, ⟨1⟩]) =
        List.range 2 :=
  ⟨by decide, claim_C1 2 2 [⟨1⟩, ⟨0⟩, ⟨0⟩, ⟨1⟩] (by decide) ⟨0⟩ (by decide)
    (by norm_num [U32])⟩

/-! ## Decimal numerals

Rust's integer `Display`/`FromStr` (used by `log_csv.rs` through
`to_string`/`parse`) are standard-library code external to the
repository; they are modelled by canonical base-10 digit strings. -/

/-- Base-10 digit string of `n`, most significant digit first; models
Rust's unsigned-integer `Display`. -/
def natToDigits (n : Nat) : Str :=
  if _h : n < 10 then [Char.ofNat (48 + n)]
  else natToDigits (n / 10) ++ [Char.ofNat (48 + n % 10)]
termination_by n
decreasing_by simpa using Nat.div_lt_self (by omega) (by omega)

/-- Value of an ASCII digit character. -/
def digitVal (c : Char) : Option Nat :=
  if 48 ≤ c.toNat ∧ c.toNat ≤ 57 then some (c.toNat - 48) else none

/-- Accumulating base-10 parse of a digit string. -/
def natParseCore : Nat → Str → Option Nat
  | acc, [] => some acc
  | acc, c :: cs => (digitVal c).bind (fun d => natParseCore (acc * 10 + d) cs)

/-- Models Rust's unsigned-integer `FromStr` on canonical inputs: a
non-empty all-digit string.  (The width guards of the individual integer
types are applied at the call sites.) -/
def natParse (cs : Str) : Option Nat :=
  match cs with
  | [] => none
  | _ :: _ => natParseCore 0 cs

theorem digitVal_ofNat (d : Nat) (hd : d < 10) :
    digitVal (Char.ofNat (48 + d)) = some d := by
  interval_cases d <;> decide

theorem toNat_digit_char (d : Nat) (hd : d < 10) :
    48 ≤ (Char.ofNat (48 + d)).toNat ∧ (Char.ofNat (48 + d)).toNat ≤ 57 := by
  interval_cases d <;> decide

theorem natParseCore_append (acc : Nat) (xs ys : Str) :
    natParseCore acc (xs ++ ys) =
      (natParseCore acc xs).bind (fun a => natParseCore a ys) := by
  induction xs generalizing acc with
  | nil => simp [natParseCore]
  | cons c cs ih =>
    simp only [List.cons_append, natParseCore]
    cases digitVal c with
    | none => simp
    | some d => simp [ih]

theorem natParseCore_natToDigits (n : Nat) :
    ∀ acc : Nat, natParseCore acc (natToDigits n) =
      some (acc * 10 ^ (natToDigits n).length + n) := by
  induction n using Nat.strong_induction_on with
  | _ n ih =>
    intro acc
    by_cases h : n < 10
    · rw [natToDigits, dif_pos h]
      simp [natParseCore, digitVal_ofNat n h]
    · rw [natToDigits, dif_neg h]
      rw [natParseCore_append]
      have hdiv : n / 10 < n := Nat.div_lt_self (by omega) (by omega)
      rw [ih (n / 10) hdiv acc]
      simp only [Option.some_bind, natParseCore,
        digitVal_ofNat (n % 10) (Nat.mod_lt _ (by omega))]
      rw [List.length_append, List.length_singleton]
      congr 1
      rw [pow_succ]
      have hmod : n / 10 * 10 + n % 10 = n := by omega
      calc (acc * 10 ^ (natToDigits (n / 10)).length + n / 10) * 10 + n % 10
          = acc * (10 ^ (natToDigits (n / 10)).length * 10) +
            (n / 10 * 10 + n % 10) := by ring
        _ = acc * (10 ^ (natToDigits (n / 10)).length * 10) + n := by rw [hmod]

theorem natToDigits_ne_nil (n : Nat) : natToDigits n ≠ [] := by
  by_cases h : n < 10
  · rw [natToDigits, dif_pos h]; simp
  · rw [natToDigits, dif_neg h]; simp

theorem natParse_natToDigits (n : Nat) : natParse (natToDigits n) = some n := by
  have hne := natToDigits_ne_nil n
  obtain ⟨c, cs, hcs⟩ : ∃ c cs, natToDigits n = c :: cs := by
    cases h : natToDigits n with
    | nil => exact absurd h hne
    | cons c cs => exact ⟨c, cs, rfl⟩
  rw [hcs]
  show natParseCore 0 (c :: cs) = some n
  rw [← hcs]
  simpa using natParseCore_natToDigits n 0

theorem mem_natToDigits_range (n : Nat) :
    ∀ c ∈ natToDigits n, 48 ≤ c.toNat ∧ c.toNat ≤ 57 := by
  induction n using Nat.strong_induction_on with
  | _ n ih =>
    intro c hc
    by_cases h : n < 10
    · rw [natToDigits, dif_pos h] at hc
      simp only [List.mem_singleton] at hc
      subst hc
      exact toNat_digit_char n h
    · rw [natToDigits, dif_neg h] at hc
      rcases List.mem_append.mp hc with h1 | h2
      · exact ih (n / 10) (Nat.div_lt_self (by omega) (by omega)) c h1
      · simp only [List.mem_singleton] at h2
        subst h2
        exact toNat_digit_char (n % 10) (Nat.mod_lt _ (by omega))

theorem space_not_mem_natToDigits (n : Nat) : ' ' ∉ natToDigits n := by
  intro h
  have := mem_natToDigits_range n ' ' h
  simp at this

theorem colon_not_mem_natToDigits (n : Nat) : ':' ∉ natToDigits n := by
  intro h
  have := mem_natToDigits_range n ':' h
  simp at this

/-! ## Log records (`src/log_csv.rs`) -/

/-- From `src/my_crc.rs`: `struct Crc(pub u64)`. -/
structure Crc where
  val : Nat
deriving DecidableEq

/-- From `src/log_csv.rs`: `enum LogCsvResult`, the result of a query:
`Ok(StatusCode, usize, Crc)` or `Err(String)`.  The HTTP status code is
its numeric `u16` value (`http::StatusCode` keeps it in `100..=999`). -/
inductive LogCsvResult where
  | Ok : Nat → Nat → Crc → LogCsvResult
  | Err : Str → LogCsvResult
deriving DecidableEq

/-- From `src/log_csv.rs`: `struct LogCsvRecord`, one log entry.  The
Rust struct is positional; fields are named here after the CSV header.
`start`/`stop` are the `UnixTimeWrap` start/end times and `d` the `f64`
duration: those scalar types (`SystemTime`, `f64`) live outside a
faithful integer embedding, so they are type parameters `τ`/`φ`,
serialized through explicit codec arguments below. -/
structure LogCsvRecord (τ φ : Type) where
  line : QueryReference
  repetition : Nat
  start : τ
  stop : τ
  d : φ
  result : LogCsvResult
deriving DecidableEq

/-- `LogCsvRecord::query_reference`. -/
def LogCsvRecord.query_reference {τ φ : Type} (r : LogCsvRecord τ φ) :
    QueryReference := r.line

/-- `LogCsvRecord::query_reference_with_repetition`. -/
def LogCsvRecord.query_reference_with_repetition {τ φ : Type}
    (r : LogCsvRecord τ φ) : QueryReferenceWithRepetition :=
  { query_reference := r.line, repetition := r.repetition }

/-- `LogCsvRecord::status_length_crc`: the response info when there is
one (non-error cases). -/
def LogCsvRecord.status_length_crc {τ φ : Type} (r : LogCsvRecord τ φ) :
    Option (Nat × Nat × Crc) :=
  match r.result with
  | .Ok status_code length crc => some (status_code, length, crc)
  | .Err _ => none

/-- Rust `str::split_once`: split at the first occurrence of `sep`. -/
def splitOnce : Str → Char → Option (Str × Str)
  | [], _ => none
  | c :: rest, sep =>
    if c = sep then some ([], rest)
    else (splitOnce rest sep).map (fun p => (c :: p.1, p.2))

theorem splitOnce_append (xs ys : Str) (sep : Char) (h : sep ∉ xs) :
    splitOnce (xs ++ sep :: ys) sep = some (xs, ys) := by
  induction xs with
  | nil => simp [splitOnce]
  | cons c cs ih =>
    have hc : c ≠ sep := fun hcs => h (hcs ▸ List.mem_cons_self c cs)
    have hrest : sep ∉ cs := fun hm => h (List.mem_cons_of_mem c hm)
    simp only [List.cons_append, splitOnce, if_neg hc]
    rw [List.append_eq, ih hrest]
    rfl

/-- Models `http::StatusCode::canonical_reason` (external crate): the
IANA reason phrase for the common codes, `"<unknown status code>"`
otherwise (exactly the fallback `Display for StatusCode` uses).  The
parser discards this component, so the table's extent is irrelevant to
every theorem below. -/
def canonicalReason (code : Nat) : Str :=
  (match code with
  | 100 => "Continue"
  | 200 => "OK"
  | 201 => "Created"
  | 204 => "No Content"
  | 301 => "Moved Permanently"
  | 302 => "Found"
  | 304 => "Not Modified"
  | 400 => "Bad Request"
  | 401 => "Unauthorized"
  | 403 => "Forbidden"
  | 404 => "Not Found"
  | 405 => "Method Not Allowed"
  | 408 => "Request Timeout"
  | 409 => "Conflict"
  | 413 => "Payload Too Large"
  | 429 => "Too Many Requests"
  | 500 => "Internal Server Error"
  | 501 => "Not Implemented"
  | 502 => "Bad Gateway"
  | 503 => "Service Unavailable"
  | 504 => "Gateway Timeout"
  | _ => "<unknown status code>").data

/-- Models `Display for http::StatusCode`: the numeric code, one space,
then the canonical reason — always of the form `"200 OK"`. -/
def statusDisplay (code : Nat) : Str :=
  natToDigits code ++ ' ' :: canonicalReason code

/-- Models `http::StatusCode::from_str` (via `from_bytes`): exactly
three ASCII digits, the first nonzero, giving a value in `100..=999`. -/
def statusFromStr (cs : Str) : Option Nat :=
  match cs with
  | [a, b, c] =>
    (digitVal a).bind fun da =>
    (digitVal b).bind fun db =>
    (digitVal c).bind fun dc =>
    if da = 0 then none else some (da * 100 + db * 10 + dc)
  | _ => none

theorem natToDigits_three (n : Nat) (h1 : 100 ≤ n) (h2 : n ≤ 999) :
    natToDigits n = [Char.ofNat (48 + n / 100),
      Char.ofNat (48 + n / 10 % 10), Char.ofNat (48 + n % 10)] := by
  have h3 : n / 10 / 10 = n / 100 := by
    rw [Nat.div_div_eq_div_mul]
  have h4 : n / 10 ≥ 10 := by omega
  rw [natToDigits, dif_neg (by omega)]
  rw [natToDigits, dif_neg (by omega)]
  rw [h3]
  rw [natToDigits, dif_pos (by omega)]
  simp

theorem statusFromStr_natToDigits (n : Nat) (h1 : 100 ≤ n) (h2 : n ≤ 999) :
    statusFromStr (natToDigits n) = some n := by
  rw [natToDigits_three n h1 h2]
  rw [statusFromStr]
  rw [digitVal_ofNat (n / 100) (by omega), digitVal_ofNat (n / 10 % 10) (by omega),
    digitVal_ofNat (n % 10) (by omega)]
  simp only [Option.some_bind]
  rw [if_neg (by omega)]
  congr 1
  omega

theorem statusDisplay_split (code : Nat) :
    splitOnce (statusDisplay code) ' ' =
      some (natToDigits code, canonicalReason code) :=
  splitOnce_append _ _ _ (space_not_mem_natToDigits code)

/-- `Display for Crc`: `"crc:"` followed by the decimal value. -/
def Crc.display (c : Crc) : Str := "crc:".data ++ natToDigits c.val

/-- `FromStr for Crc`: split at the first `':'`, demand a `"crc"`
prefix, parse the rest as `u64`. -/
def Crc.fromStr (cs : Str) : Option Crc :=
  (splitOnce cs ':').bind fun p =>
    if p.1 = "crc".data then
      (natParse p.2).bind fun v => if v < U64 then some (Crc.mk v) else none
    else none

theorem crcFromStr_display (c : Crc) (h : c.val < U64) :
    Crc.fromStr c.display = some c := by
  have hsplit : splitOnce ("crc:".data ++ natToDigits c.val) ':' =
      some ("crc".data, natToDigits c.val) := by
    have : ("crc:".data ++ natToDigits c.val) =
        ("crc".data ++ ':' :: natToDigits c.val) := rfl
    rw [this]
    exact splitOnce_append _ _ _ (by decide)
  rw [Crc.fromStr, Crc.display, hsplit]
  simp only [Option.some_bind, if_pos rfl, natParse_natToDigits]
  cases c
  simp_all

/-- `Display for QueryReference`: the 1-based line number. -/
def QueryReference.display (q : QueryReference) : Str :=
  natToDigits (q.query_index + 1)

/-- Rust `u64::from_str`: value must fit in 64 bits. -/
def parse_u64 (cs : Str) : Option Nat :=
  (natParse cs).bind fun n => if n < U64 then some n else none

/-- Rust `u32::from_str`: value must fit in 32 bits. -/
def parse_u32 (cs : Str) : Option Nat :=
  (natParse cs).bind fun n => if n < U32 then some n else none

/-- `FromStr for QueryReference`: parse as `u64`, subtract 1 (the
number must be at least 1), and require the result to fit in `u32`. -/
def QueryReference.fromStr (cs : Str) : Option QueryReference :=
  (parse_u64 cs).bind fun n =>
    if 1 ≤ n then
      (if n - 1 < U32 then some (QueryReference.mk (n - 1)) else none)
    else none

theorem queryReferenceFromStr_display (q : QueryReference)
    (h : q.query_index < U32) :
    QueryReference.fromStr q.display = some q := by
  rw [QueryReference.fromStr, QueryReference.display, parse_u64,
    natParse_natToDigits]
  have h64 : q.query_index + 1 < U64 := by
    have : U32 < U64 := by norm_num [U32, U64]
    omega
  simp only [Option.some_bind, if_pos h64, if_pos (by omega : 1 ≤ q.query_index + 1)]
  rw [if_pos (by simpa using h)]
  simp

/-! ## Writing and parsing rows

The `csv` crate's quoting/escaping layer is external to the repository
and is an inverse pair by its own contract, so rows are modelled at the
field level: `LogCsv::write_row` produces the list of 10 field strings
(the normal format's `&record[..10]` slice after the per-variant
mutations), and `LogCsvNormalFormat::parse_row` consumes such a list. -/

/-- `LogCsvNormalFormat::NUM_COLS`. -/
def LogCsvNormalFormat.NUM_COLS : Nat := 10

/-- `LogCsvNormalFormat::HEADER`. -/
def LogCsvNormalFormat.HEADER : List String :=
  ["line in query file", "repetition", "start", "end", "d",
   "Ok/Err", "status", "length", "crc", "error"]

/-- `LogCsvExtendedFormat::NUM_COLS = LogCsvNormalFormat::NUM_COLS + 1`. -/
def LogCsvExtendedFormat.NUM_COLS : Nat := LogCsvNormalFormat.NUM_COLS + 1

/-- `LogCsvExtendedFormat::header`: the normal header plus a trailing
`"query string"` column. -/
def LogCsvExtendedFormat.header : List String :=
  LogCsvNormalFormat.HEADER ++ ["query string"]

/-- `LogCsv::write_row` in the normal format: fields 0–4 are the record
scalars via `to_string`, then the `LogCsvResult` fills fields 5–9
(`Ok`: tag, `"200 OK"`-style status, length, `crc:` value, empty error;
`Err`: tag, three empty fields, the error text).  `dispT`/`dispF` are
the codecs for the time and duration scalars. -/
def LogCsv.write_row {τ φ : Type} (dispT : τ → Str) (dispF : φ → Str)
    (r : LogCsvRecord τ φ) : List Str :=
  match r.result with
  | .Ok status_code length crc =>
    [r.line.display, natToDigits r.repetition, dispT r.start, dispT r.stop,
     dispF r.d, "Ok".data, statusDisplay status_code, natToDigits length,
     crc.display, []]
  | .Err e =>
    [r.line.display, natToDigits r.repetition, dispT r.start, dispT r.stop,
     dispF r.d, "Err".data, [], [], [], e]

/-- `LogCsvNormalFormat::parse_row`: reconstructs a typed record from
the 10 fields, in the source's order of operations.  The catch-all row
shape is unreachable at the Rust type (`&[_; NUM_COLS]`); the length
guard lives in `LogCsvReader::next`. -/
def LogCsvNormalFormat.parse_row {τ φ : Type} (parseT : Str → Option τ)
    (parseF : Str → Option φ) (row : List Str) :
    Except Str (LogCsvRecord τ φ) :=
  match row with
  | [line, repetition, start, stop, d, ok_err, status_code, length, crc, error] =>
    match QueryReference.fromStr line with
    | none => .error ("parsing field as line in query file".data)
    | some line =>
    match parse_u32 repetition with
    | none => .error ("parsing field as repetition".data)
    | some repetition =>
    match parseT start with
    | none => .error ("parsing field as start".data)
    | some start =>
    match parseT stop with
    | none => .error ("parsing field as end".data)
    | some stop =>
    match parseF d with
    | none => .error ("parsing field as d".data)
    | some d =>
    if ok_err = "Ok".data then
      match splitOnce status_code ' ' with
      | none => .error ("expecting status code number followed by a space".data)
      | some (code, _) =>
      match statusFromStr code with
      | none => .error ("parsing field as HTTP status code".data)
      | some status_code =>
      match parse_u64 length with
      | none => .error ("parsing field as length".data)
      | some length =>
      match Crc.fromStr crc with
      | none => .error ("parsing field as CRC".data)
      | some crc =>
        .ok { line, repetition, start, stop, d,
              result := .Ok status_code length crc }
    else if ok_err = "Err".data then
      .ok { line, repetition, start, stop, d, result := .Err error }
    else .error ("invalid entry in Ok/Err column".data)
  | _ => .error ("row is not NUM_COLS fields".data)

/-- C3: serializing a `LogCsvRecord` to a CSV row with the writer and
parsing that row back with the reader yields a field-identical record —
line reference, repetition, start, end, duration, outcome tag, status
code, length and checksum unchanged, the error text of an `Err` outcome
verbatim; the status field written as `"200 OK"` is split on the space
and only the numeric prefix parsed back.  Hypotheses: the time/duration
codecs round-trip at the record's values (Rust guarantees this for
`f64`/unix-time formatting), the `u32` fields are in range, and an `Ok`
outcome carries a valid `http::StatusCode` (`100..=999`) and `u64`-sized
length and checksum — all invariants of the types being serialized. -/
theorem claim_C3 {τ φ : Type} (dispT : τ → Str) (parseT : Str → Option τ)
    (dispF : φ → Str) (parseF : Str → Option φ) (r : LogCsvRecord τ φ)
    (hstart : parseT (dispT r.start) = some r.start)
    (hstop : parseT (dispT r.stop) = some r.stop)
    (hd : parseF (dispF r.d) = some r.d)
    (hq : r.line.query_index < U32)
    (hrep : r.repetition < U32)
    (hres : ∀ s l c, r.result = LogCsvResult.Ok s l c →
      100 ≤ s ∧ s ≤ 999 ∧ l < U64 ∧ c.val < U64) :
    LogCsvNormalFormat.parse_row parseT parseF
      (LogCsv.write_row dispT dispF r) = .ok r := by
  obtain ⟨line, repetition, start, stop, d, result⟩ := r
  simp only at hstart hstop hd hq hrep
  have hrepparse : parse_u32 (natToDigits repetition) = some repetition := by
    rw [parse_u32, natParse_natToDigits]
    simp [hrep]
  cases result with
  | Ok s l c =>
    obtain ⟨hs1, hs2, hl, hc⟩ := hres s l c rfl
    have hlparse : parse_u64 (natToDigits l) = some l := by
      rw [parse_u64, natParse_natToDigits]
      simp [hl]
    simp only [LogCsv.write_row]
    simp only [LogCsvNormalFormat.parse_row,
      queryReferenceFromStr_display line hq, hrepparse, hstart, hstop, hd,
      reduceIte, statusDisplay_split, statusFromStr_natToDigits s hs1 hs2,
      hlparse, crcFromStr_display c hc]
  | Err e =>
    simp only [LogCsv.write_row]
    simp only [LogCsvNormalFormat.parse_row,
      queryReferenceFromStr_display line hq, hrepparse, hstart, hstop, hd,
      reduceIte]
    rw [if_neg (by decide)]

/-- Witness for C3: a concrete `Ok` record over `Nat` scalars with the
decimal codec. -/
theorem claim_C3_witness :
    LogCsvNormalFormat.parse_row natParse natParse
        (LogCsv.write_row natToDigits natToDigits
          ({ line := ⟨3⟩, repetition := 1, start := 10, stop := 12, d := 2,
             result := .Ok 200 5 ⟨99⟩ } : LogCsvRecord Nat Nat)) =
      .ok { line := ⟨3⟩, repetition := 1, start := 10, stop := 12, d := 2,
            result := .Ok 200 5 ⟨99⟩ } :=
  claim_C3 natToDigits natParse natToDigits natParse _
    (natParse_natToDigits 10) (natParse_natToDigits 12) (natParse_natToDigits 2)
    (by norm_num [U32]) (by norm_num [U32])
    (by intro s l c h
        simp only [LogCsvResult.Ok.injEq] at h
        obtain ⟨h1, h2, h3⟩ := h
        subst h1; subst h2; subst h3
        norm_num [U64])

/-! ## The reconciler (`src/bin/api-query-log.rs`)

`AutoVec` is `src/auto_vec.rs`: an automatically extending vector with a
fill value; `Sums` accumulates one log's per-reference first responses,
seen counters (`u8`, hence saturation at 255), intra-run defects and
confirmed-stable count. -/

/-- From `src/auto_vec.rs`: `AutoVec<T>`, a `Vec` that extends itself
with copies of `fill` on out-of-range writes. -/
structure AutoVec (α : Type) where
  fill : α
  vec : List α
deriving DecidableEq

/-- `AutoVec::new`. -/
def AutoVec.new {α : Type} (fill : α) : AutoVec α := ⟨fill, []⟩

/-- The `resize_with(i + 1, || fill)` step shared by `set` and
`get_mut`. -/
def AutoVec.ensure {α : Type} (v : AutoVec α) (i : Nat) : AutoVec α :=
  if v.vec.length ≤ i then
    ⟨v.fill, v.vec ++ List.replicate (i + 1 - v.vec.length) v.fill⟩
  else v

/-- `AutoVec::set`. -/
def AutoVec.set {α : Type} (v : AutoVec α) (i : Nat) (x : α) : AutoVec α :=
  let w := v.ensure i
  ⟨w.fill, w.vec.set i x⟩

/-- `AutoVec::get_copy`: the element, or `fill` out of range. -/
def AutoVec.get_copy {α : Type} (v : AutoVec α) (i : Nat) : α :=
  v.vec.getD i v.fill

/-- `AutoVec::len`. -/
def AutoVec.len {α : Type} (v : AutoVec α) : Nat := v.vec.length

/-- `AutoVec::saturating_inc` at element type `u8`: extend, add 1
saturating at 255, store, and return the new value. -/
def AutoVec.saturating_inc (v : AutoVec Nat) (i : Nat) : AutoVec Nat × Nat :=
  let w := v.ensure i
  let newVal := min (w.vec.getD i w.fill + 1) 255
  (⟨w.fill, w.vec.set i newVal⟩, newVal)

theorem AutoVec.fill_ensure {α : Type} (v : AutoVec α) (i : Nat) :
    (v.ensure i).fill = v.fill := by
  rw [AutoVec.ensure]
  split <;> rfl

theorem AutoVec.get_copy_ensure {α : Type} (v : AutoVec α) (i j : Nat) :
    (v.ensure i).get_copy j = v.get_copy j := by
  rw [AutoVec.ensure]
  split
  · rename_i hle
    rw [AutoVec.get_copy, AutoVec.get_copy]
    simp only [List.getD_eq_getElem?_getD]
    by_cases hj : j < v.vec.length
    · rw [List.getElem?_append_left hj]
    · rw [List.getElem?_append_right (by omega)]
      rw [List.getElem?_replicate]
      have : v.vec[j]? = none := List.getElem?_eq_none (by omega)
      rw [this]
      split <;> simp
  · rfl

theorem AutoVec.len_ensure {α : Type} (v : AutoVec α) (i : Nat) :
    (v.ensure i).len = max v.len (i + 1) := by
  rw [AutoVec.ensure]
  split <;> rename_i h <;> simp [AutoVec.len] at * <;> omega

theorem AutoVec.lt_len_ensure {α : Type} (v : AutoVec α) (i : Nat) :
    i < (v.ensure i).len := by
  rw [AutoVec.len_ensure]
  omega

theorem AutoVec.fill_set {α : Type} (v : AutoVec α) (i : Nat) (x : α) :
    (v.set i x).fill = v.fill := AutoVec.fill_ensure v i

theorem AutoVec.len_set {α : Type} (v : AutoVec α) (i : Nat) (x : α) :
    (v.set i x).len = max v.len (i + 1) := by
  rw [AutoVec.set]
  show (List.set _ i x).length = _
  rw [List.length_set]
  exact AutoVec.len_ensure v i

theorem AutoVec.get_copy_set_self {α : Type} (v : AutoVec α) (i : Nat) (x : α) :
    (v.set i x).get_copy i = x := by
  rw [AutoVec.set]
  show ((v.ensure i).vec.set i x).getD i (v.ensure i).fill = x
  rw [List.getD_eq_getElem?_getD,
    List.getElem?_set_self (by simpa [AutoVec.len] using v.lt_len_ensure i)]
  rfl

theorem AutoVec.get_copy_set_ne {α : Type} (v : AutoVec α) (i j : Nat) (x : α)
    (h : i ≠ j) : (v.set i x).get_copy j = v.get_copy j := by
  rw [AutoVec.set]
  show ((v.ensure i).vec.set i x).getD j (v.ensure i).fill = _
  rw [List.getD_eq_getElem?_getD, List.getElem?_set_ne h]
  rw [← List.getD_eq_getElem?_getD]
  exact AutoVec.get_copy_ensure v i j

theorem AutoVec.saturating_inc_fst_get_self (v : AutoVec Nat) (i : Nat) :
    ((v.saturating_inc i).1).get_copy i = min (v.get_copy i + 1) 255 := by
  rw [AutoVec.saturating_inc]
  show ((v.ensure i).vec.set i _).getD i (v.ensure i).fill = _
  rw [List.getD_eq_getElem?_getD,
    List.getElem?_set_self (by simpa [AutoVec.len] using v.lt_len_ensure i)]
  show min ((v.ensure i).get_copy i + 1) 255 = _
  rw [AutoVec.get_copy_ensure]

theorem AutoVec.saturating_inc_fst_get_ne (v : AutoVec Nat) (i j : Nat)
    (h : i ≠ j) : ((v.saturating_inc i).1).get_copy j = v.get_copy j := by
  rw [AutoVec.saturating_inc]
  show ((v.ensure i).vec.set i _).getD j (v.ensure i).fill = _
  rw [List.getD_eq_getElem?_getD, List.getElem?_set_ne h,
    ← List.getD_eq_getElem?_getD]
  exact AutoVec.get_copy_ensure v i j

theorem AutoVec.saturating_inc_snd (v : AutoVec Nat) (i : Nat) :
    (v.saturating_inc i).2 = min (v.get_copy i + 1) 255 := by
  rw [AutoVec.saturating_inc]
  show min ((v.ensure i).get_copy i + 1) 255 = _
  rw [AutoVec.get_copy_ensure]

theorem AutoVec.saturating_inc_fill (v : AutoVec Nat) (i : Nat) :
    ((v.saturating_inc i).1).fill = v.fill := AutoVec.fill_ensure v i

theorem AutoVec.saturating_inc_len (v : AutoVec Nat) (i : Nat) :
    ((v.saturating_inc i).1).len = max v.len (i + 1) := by
  rw [AutoVec.saturating_inc]
  show (List.set _ i _).length = _
  rw [List.length_set]
  exact AutoVec.len_ensure v i

theorem AutoVec.lt_len_of_get_copy_ne_fill {α : Type} (v : AutoVec α) (i : Nat)
    (h : v.get_copy i ≠ v.fill) : i < v.len := by
  by_contra hge
  apply h
  rw [AutoVec.get_copy, List.getD_eq_getElem?_getD,
    List.getElem?_eq_none (by simpa [AutoVec.len] using hge)]
  rfl

/-- C8 is wrong on the code: the normal-format header has 10 column
names, not 9 (`LogCsvNormalFormat::HEADER` lists
line/repetition/start/end/d/Ok-Err/status/length/crc/error), and the
extended format appends one more for 11, not 10. -/
theorem claim_C8_counterexample :
    ¬(LogCsvNormalFormat.HEADER.length = 9 ∧
      LogCsvExtendedFormat.header.length = 10) := by
  decide

/-- C8 (amended): the written log file's header row lists 10 column
names in the normal format and 11 in the extended format. -/
theorem claim_C8 :
    LogCsvNormalFormat.HEADER.length = LogCsvNormalFormat.NUM_COLS ∧
      LogCsvNormalFormat.HEADER.length = 10 ∧
      LogCsvExtendedFormat.header.length = LogCsvExtendedFormat.NUM_COLS ∧
      LogCsvExtendedFormat.header.length = 11 := by
  decide

/-- From `src/bin/api-query-log.rs`: `SumError::NonMatchingCrc`, a
non-matching-checksum defect carrying the reference with its repetition
and the conflicting `(status, length, crc)` value. -/
structure SumError where
  reference : QueryReferenceWithRepetition
  crc : Nat × Nat × Crc
deriving DecidableEq

/-- The `Sums::new` fill triple:
`(StatusCode::from_u16(200), 13131313131313, Crc(0))`. -/
def sumsFill : Nat × Nat × Crc := (200, 13131313131313, Crc.mk 0)

/-- From `src/bin/api-query-log.rs`: `struct Sums` (the per-log state;
the `path` field is presentation-only and omitted). -/
structure Sums where
  sums : AutoVec (Nat × Nat × Crc)
  seen : AutoVec Nat
  errors : List SumError
  successes : Nat
deriving DecidableEq

/-- `Sums::new`. -/
def Sums.new : Sums :=
  { sums := AutoVec.new sumsFill, seen := AutoVec.new 0,
    errors := [], successes := 0 }

/-- `Sums::len` (the source asserts `sums.len() == seen.len()`; that
invariant is `Sums.wf` below and proved for every reachable state). -/
def Sums.len (s : Sums) : Nat := s.sums.len

/-- The `assert_eq!` inside `Sums::len`. -/
def Sums.wf (s : Sums) : Prop := s.seen.len = s.sums.len

/-- `Sums::add`: ignore `Err` records; saturating-increment the seen
counter; on the first occurrence store the `(status, length, crc)`
triple, on later occurrences compare with the stored first triple —
equal increments `successes`, unequal records a `NonMatchingCrc`
defect. -/
def Sums.add {τ φ : Type} (s : Sums) (record : LogCsvRecord τ φ) : Sums :=
  match record.status_length_crc with
  | some crc =>
    let i := record.query_reference.query_index
    let seenRes := s.seen.saturating_inc i
    let seen := seenRes.1
    let now_uses := seenRes.2
    if now_uses > 1 then
      let first_crc := s.sums.get_copy i
      if crc = first_crc then
        { s with seen := seen, successes := s.successes + 1 }
      else
        let newErrors := s.errors ++
          [{ reference := record.query_reference_with_repetition, crc := crc }]
        { s with seen := seen, errors := newErrors }
    else
      { s with seen := seen, sums := s.sums.set i crc }
  | none => s

/-- The fold in `sums_from_file` (after ignore filtering). -/
def sumsRun {τ φ : Type} (rs : List (LogCsvRecord τ φ)) : Sums :=
  rs.foldl Sums.add Sums.new

/-- `sums_from_file`: count ignored records, add every other record;
`ignore` is the regex predicate on the referenced query (external
`regex` crate), abstracted as a Boolean predicate. -/
def sums_from_file {τ φ : Type} (ignore : QueryReference → Bool)
    (rows : List (LogCsvRecord τ φ)) : Nat × Sums :=
  ((rows.filter (fun r => ignore r.query_reference)).length,
   sumsRun (rows.filter (fun r => !ignore r.query_reference)))

/-! Specification-side descriptions of one log pass, stated against the
record list itself rather than the folded state. -/

/-- The `(status, length, crc)` triples of the successful records for
reference index `i`, in log order. -/
def okTriples {τ φ : Type} (i : Nat) (rs : List (LogCsvRecord τ φ)) :
    List (Nat × Nat × Crc) :=
  rs.filterMap (fun r =>
    if r.query_reference.query_index = i then r.status_length_crc else none)

/-- The defect contributed by record `r` arriving after history `hist`:
nothing unless `r` is successful and its reference already has a
successful occurrence, in which case a differing triple yields one
`NonMatchingCrc` carrying the reference, repetition and `r`'s triple. -/
def addDefects {τ φ : Type} (hist : List (LogCsvRecord τ φ))
    (r : LogCsvRecord τ φ) : List SumError :=
  match r.status_length_crc with
  | some t =>
    match okTriples r.query_reference.query_index hist with
    | [] => []
    | first :: _ =>
      if t = first then []
      else [{ reference := r.query_reference_with_repetition, crc := t }]
  | none => []

/-- The confirmed-stable contribution of record `r` after history
`hist`: 1 when `r` is successful, is not the first successful occurrence
of its reference, and matches the first occurrence's triple. -/
def addMatches {τ φ : Type} (hist : List (LogCsvRecord τ φ))
    (r : LogCsvRecord τ φ) : Nat :=
  match r.status_length_crc with
  | some t =>
    match okTriples r.query_reference.query_index hist with
    | [] => 0
    | first :: _ => if t = first then 1 else 0
  | none => 0

/-- All defects of a log suffix, each judged against the history before
it. -/
def defectsSpec {τ φ : Type} (hist : List (LogCsvRecord τ φ)) :
    List (LogCsvRecord τ φ) → List SumError
  | [] => []
  | r :: rest => addDefects hist r ++ defectsSpec (hist ++ [r]) rest

/-- Total confirmed-stable count of a log suffix. -/
def matchesSpec {τ φ : Type} (hist : List (LogCsvRecord τ φ)) :
    List (LogCsvRecord τ φ) → Nat
  | [] => 0
  | r :: rest => addMatches hist r + matchesSpec (hist ++ [r]) rest

theorem defectsSpec_append {τ φ : Type} (xs : List (LogCsvRecord τ φ))
    (r : LogCsvRecord τ φ) : ∀ hist,
    defectsSpec hist (xs ++ [r]) =
      defectsSpec hist xs ++ addDefects (hist ++ xs) r := by
  induction xs with
  | nil => intro hist; simp [defectsSpec]
  | cons x xs ih =>
    intro hist
    show addDefects hist x ++ defectsSpec (hist ++ [x]) (xs ++ [r]) =
      (addDefects hist x ++ defectsSpec (hist ++ [x]) xs) ++
        addDefects (hist ++ x :: xs) r
    rw [ih (hist ++ [x])]
    have h : (hist ++ [x]) ++ xs = hist ++ x :: xs := by simp
    rw [h, List.append_assoc]

theorem matchesSpec_append {τ φ : Type} (xs : List (LogCsvRecord τ φ))
    (r : LogCsvRecord τ φ) : ∀ hist,
    matchesSpec hist (xs ++ [r]) =
      matchesSpec hist xs + addMatches (hist ++ xs) r := by
  induction xs with
  | nil => intro hist; simp [matchesSpec]
  | cons x xs ih =>
    intro hist
    show addMatches hist x + matchesSpec (hist ++ [x]) (xs ++ [r]) =
      (addMatches hist x + matchesSpec (hist ++ [x]) xs) +
        addMatches (hist ++ x :: xs) r
    rw [ih (hist ++ [x])]
    have h : (hist ++ [x]) ++ xs = hist ++ x :: xs := by simp
    rw [h]
    omega

theorem okTriples_append {τ φ : Type} (i : Nat)
    (xs ys : List (LogCsvRecord τ φ)) :
    okTriples i (xs ++ ys) = okTriples i xs ++ okTriples i ys := by
  simp [okTriples]

theorem okTriples_singleton_self {τ φ : Type} (r : LogCsvRecord τ φ)
    (t : Nat × Nat × Crc) (hr : r.status_length_crc = some t) :
    okTriples r.query_reference.query_index [r] = [t] := by
  simp [okTriples, hr]

theorem okTriples_singleton_ne {τ φ : Type} (i : Nat) (r : LogCsvRecord τ φ)
    (h : r.query_reference.query_index ≠ i) : okTriples i [r] = [] := by
  simp [okTriples, h]

theorem okTriples_singleton_err {τ φ : Type} (i : Nat) (r : LogCsvRecord τ φ)
    (hr : r.status_length_crc = none) : okTriples i [r] = [] := by
  by_cases h : r.query_reference.query_index = i
  · simp [okTriples, h, hr]
  · simp [okTriples, h]

theorem Sums.add_err {τ φ : Type} (s : Sums) (r : LogCsvRecord τ φ)
    (hr : r.status_length_crc = none) : Sums.add s r = s := by
  simp [Sums.add, hr]

theorem Sums.add_first {τ φ : Type} (s : Sums) (r : LogCsvRecord τ φ)
    (t : Nat × Nat × Crc) (hr : r.status_length_crc = some t)
    (h1 : (s.seen.saturating_inc r.query_reference.query_index).2 ≤ 1) :
    Sums.add s r =
      { s with
        seen := (s.seen.saturating_inc r.query_reference.query_index).1,
        sums := s.sums.set r.query_reference.query_index t } := by
  simp only [Sums.add, hr]
  rw [if_neg (by omega)]

theorem Sums.add_repeat_match {τ φ : Type} (s : Sums) (r : LogCsvRecord τ φ)
    (t : Nat × Nat × Crc) (hr : r.status_length_crc = some t)
    (h1 : (s.seen.saturating_inc r.query_reference.query_index).2 > 1)
    (h2 : t = s.sums.get_copy r.query_reference.query_index) :
    Sums.add s r =
      { s with
        seen := (s.seen.saturating_inc r.query_reference.query_index).1,
        successes := s.successes + 1 } := by
  simp only [Sums.add, hr]
  rw [if_pos h1, if_pos h2]

theorem Sums.add_repeat_mismatch {τ φ : Type} (s : Sums) (r : LogCsvRecord τ φ)
    (t : Nat × Nat × Crc) (hr : r.status_length_crc = some t)
    (h1 : (s.seen.saturating_inc r.query_reference.query_index).2 > 1)
    (h2 : t ≠ s.sums.get_copy r.query_reference.query_index) :
    Sums.add s r =
      { s with
        seen := (s.seen.saturating_inc r.query_reference.query_index).1,
        errors := s.errors ++
          [{ reference := r.query_reference_with_repetition, crc := t }] } := by
  simp only [Sums.add, hr]
  rw [if_pos h1, if_neg h2]

theorem sumsRun_append_one {τ φ : Type} (rs : List (LogCsvRecord τ φ))
    (r : LogCsvRecord τ φ) : sumsRun (rs ++ [r]) = Sums.add (sumsRun rs) r := by
  simp [sumsRun, List.foldl_append]

/-- The full characterization of one reconciler pass over a record
list: the first-occurrence table, the saturating seen counters, the
confirmed-stable count, the defect list, the fill values and the
equal-length invariant asserted by `Sums::len`. -/
theorem sumsRun_spec {τ φ : Type} (rs : List (LogCsvRecord τ φ)) :
    (∀ i, (sumsRun rs).sums.get_copy i = (okTriples i rs).headD sumsFill) ∧
    (∀ i, (sumsRun rs).seen.get_copy i = min (okTriples i rs).length 255) ∧
    (sumsRun rs).successes = matchesSpec [] rs ∧
    (sumsRun rs).errors = defectsSpec [] rs ∧
    (sumsRun rs).sums.fill = sumsFill ∧
    (sumsRun rs).seen.fill = 0 ∧
    (sumsRun rs).seen.len = (sumsRun rs).sums.len := by
  induction rs using List.reverseRecOn with
  | nil =>
    refine ⟨fun i => rfl, fun i => rfl, rfl, rfl, rfl, rfl, rfl⟩
  | append_singleton rs r ih =>
    obtain ⟨ih1, ih2, ih3, ih4, ih5, ih6, ih7⟩ := ih
    rw [sumsRun_append_one]
    cases hr : r.status_length_crc with
    | none =>
      rw [Sums.add_err _ _ hr]
      have hok : ∀ i, okTriples i (rs ++ [r]) = okTriples i rs := by
        intro i
        rw [okTriples_append, okTriples_singleton_err i r hr, List.append_nil]
      have hm : addMatches rs r = 0 := by
        simp only [addMatches, hr]
      have hdft : addDefects rs r = [] := by
        simp only [addDefects, hr]
      refine ⟨fun i => by rw [hok i]; exact ih1 i,
        fun i => by rw [hok i]; exact ih2 i, ?_, ?_, ih5, ih6, ih7⟩
      · rw [matchesSpec_append, ih3, List.nil_append, hm]
        omega
      · rw [defectsSpec_append, ih4, List.nil_append, hdft]
        simp
    | some t =>
      set j := r.query_reference.query_index with hj
      have hsnd : ((sumsRun rs).seen.saturating_inc j).2 =
          min ((sumsRun rs).seen.get_copy j + 1) 255 :=
        AutoVec.saturating_inc_snd _ j
      have hokj : okTriples j (rs ++ [r]) = okTriples j rs ++ [t] := by
        rw [okTriples_append, okTriples_singleton_self r t hr]
      have hokne : ∀ i, i ≠ j → okTriples i (rs ++ [r]) = okTriples i rs := by
        intro i hi
        rw [okTriples_append, okTriples_singleton_ne i r (Ne.symm hi),
          List.append_nil]
      cases hfirst : okTriples j rs with
      | nil =>
        have hL : (sumsRun rs).seen.get_copy j = 0 := by
          rw [ih2 j, hfirst]
          simp
        have hcond : ((sumsRun rs).seen.saturating_inc j).2 ≤ 1 := by
          rw [hsnd, hL]
          omega
        rw [Sums.add_first _ _ t hr hcond]
        have hm : addMatches rs r = 0 := by
          simp only [addMatches, hr, ← hj, hfirst]
        have hdft : addDefects rs r = [] := by
          simp only [addDefects, hr, ← hj, hfirst]
        refine ⟨?_, ?_, ?_, ?_, ?_, ?_, ?_⟩
        · intro i
          by_cases hi : i = j
          · subst hi
            show ((sumsRun rs).sums.set j t).get_copy j = _
            rw [AutoVec.get_copy_set_self, hokj, hfirst]
            rfl
          · show ((sumsRun rs).sums.set j t).get_copy i = _
            rw [AutoVec.get_copy_set_ne _ _ _ _ (fun hc => hi hc.symm),
              hokne i hi, ih1 i]
        · intro i
          by_cases hi : i = j
          · subst hi
            show (((sumsRun rs).seen.saturating_inc j).1).get_copy j = _
            rw [AutoVec.saturating_inc_fst_get_self, hL, hokj, hfirst]
            simp
          · show (((sumsRun rs).seen.saturating_inc j).1).get_copy i = _
            rw [AutoVec.saturating_inc_fst_get_ne _ _ _ (fun hc => hi hc.symm),
              hokne i hi, ih2 i]
        · show (sumsRun rs).successes = _
          rw [matchesSpec_append, ih3, List.nil_append, hm]
          omega
        · show (sumsRun rs).errors = _
          rw [defectsSpec_append, ih4, List.nil_append, hdft]
          simp
        · show ((sumsRun rs).sums.set j t).fill = _
          rw [AutoVec.fill_set, ih5]
        · show (((sumsRun rs).seen.saturating_inc j).1).fill = _
          rw [AutoVec.saturating_inc_fill, ih6]
        · show (((sumsRun rs).seen.saturating_inc j).1).len =
            ((sumsRun rs).sums.set j t).len
          rw [AutoVec.saturating_inc_len, AutoVec.len_set, ih7]
      | cons first tail =>
        have hLpos : (sumsRun rs).seen.get_copy j =
            min (first :: tail).length 255 := by
          rw [ih2 j, hfirst]
        have hcond : ((sumsRun rs).seen.saturating_inc j).2 > 1 := by
          rw [hsnd, hLpos]
          simp only [List.length_cons]
          omega
        have hfirstval : (sumsRun rs).sums.get_copy j = first := by
          rw [ih1 j, hfirst]
          rfl
        have hseenj : ∀ i, (((sumsRun rs).seen.saturating_inc j).1).get_copy i =
            min (okTriples i (rs ++ [r])).length 255 := by
          intro i
          by_cases hi : i = j
          · subst hi
            rw [AutoVec.saturating_inc_fst_get_self, hLpos, hokj, hfirst]
            have h1 : ((first :: tail) ++ [t]).length = tail.length + 2 := by
              simp
            have h2 : (first :: tail).length = tail.length + 1 := by simp
            rw [h1, h2]
            omega
          · rw [AutoVec.saturating_inc_fst_get_ne _ _ _ (fun hc => hi hc.symm),
              hokne i hi, ih2 i]
        have hsumsi : ∀ i, (sumsRun rs).sums.get_copy i =
            (okTriples i (rs ++ [r])).headD sumsFill := by
          intro i
          by_cases hi : i = j
          · subst hi
            rw [ih1 j, hokj, hfirst]
            rfl
          · rw [hokne i hi, ih1 i]
        have hseenlen : (((sumsRun rs).seen.saturating_inc j).1).len =
            (sumsRun rs).seen.len := by
          rw [AutoVec.saturating_inc_len]
          have : j < (sumsRun rs).seen.len := by
            apply AutoVec.lt_len_of_get_copy_ne_fill
            rw [hLpos, ih6]
            simp only [List.length_cons]
            omega
          omega
        by_cases heq : t = first
        · rw [Sums.add_repeat_match _ _ t hr hcond (by rw [hfirstval, heq])]
          have hm : addMatches rs r = 1 := by
            simp only [addMatches, hr, ← hj, hfirst]
            rw [if_pos heq]
          have hdft : addDefects rs r = [] := by
            simp only [addDefects, hr, ← hj, hfirst]
            rw [if_pos heq]
          refine ⟨hsumsi, hseenj, ?_, ?_, ih5, ?_, ?_⟩
          · show (sumsRun rs).successes + 1 = _
            rw [matchesSpec_append, ih3, List.nil_append, hm]
          · show (sumsRun rs).errors = _
            rw [defectsSpec_append, ih4, List.nil_append, hdft]
            simp
          · show (((sumsRun rs).seen.saturating_inc j).1).fill = _
            rw [AutoVec.saturating_inc_fill, ih6]
          · show (((sumsRun rs).seen.saturating_inc j).1).len = _
            rw [hseenlen, ih7]
        · rw [Sums.add_repeat_mismatch _ _ t hr hcond (by rw [hfirstval]; exact heq)]
          have hm : addMatches rs r = 0 := by
            simp only [addMatches, hr, ← hj, hfirst]
            rw [if_neg heq]
          have hdft : addDefects rs r =
              [{ reference := r.query_reference_with_repetition, crc := t }] := by
            simp only [addDefects, hr, ← hj, hfirst]
            rw [if_neg heq]
          refine ⟨hsumsi, hseenj, ?_, ?_, ih5, ?_, ?_⟩
          · show (sumsRun rs).successes = _
            rw [matchesSpec_append, ih3, List.nil_append, hm]
            omega
          · show (sumsRun rs).errors ++ _ = _
            rw [defectsSpec_append, ih4, List.nil_append, hdft]
          · show (((sumsRun rs).seen.saturating_inc j).1).fill = _
            rw [AutoVec.saturating_inc_fill, ih6]
          · show (((sumsRun rs).seen.saturating_inc j).1).len = _
            rw [hseenlen, ih7]

/-- C4: for each log the reconciler builds a table mapping every
`QueryReference` to the value recorded at its first non-ignored
(successful) occurrence — the `(status, length, checksum)` entry whose
checksum is the one recorded there — plus a seen-counter; every later
non-ignored successful occurrence of the same reference is compared
against that first value: if equal, the confirmed-stable count is
incremented; if unequal, a non-matching-checksum defect is recorded
carrying the reference, its repetition, and the conflicting value.
(`Err` rows carry no checksum and are skipped by `Sums::add`; the `u8`
seen-counter saturates at 255.) -/
theorem claim_C4 {τ φ : Type} (ignore : QueryReference → Bool)
    (rows : List (LogCsvRecord τ φ)) :
    (∀ i, (sums_from_file ignore rows).2.sums.get_copy i =
      (okTriples i (rows.filter
        (fun r => !ignore r.query_reference))).headD sumsFill) ∧
    (∀ i, (sums_from_file ignore rows).2.seen.get_copy i =
      min (okTriples i (rows.filter
        (fun r => !ignore r.query_reference))).length 255) ∧
    (sums_from_file ignore rows).2.successes =
      matchesSpec [] (rows.filter (fun r => !ignore r.query_reference)) ∧
    (sums_from_file ignore rows).2.errors =
      defectsSpec [] (rows.filter (fun r => !ignore r.query_reference)) := by
  have h := sumsRun_spec (rows.filter (fun r => !ignore r.query_reference))
  exact ⟨h.1, h.2.1, h.2.2.1, h.2.2.2.1⟩

/-! ## The Compare command's per-reference loop -/

/-- The counters and printed divergence rows of the `Compare` loop
(`main`, `Command::Compare`); a printed divergence row is modelled as
`(1-based line, run-1 triple, run-2 triple)`. -/
structure CompareCounts where
  num_errors : Nat
  num_same : Nat
  num_ignored_counted : Nat
  divergences : List (Nat × (Nat × Nat × Crc) × (Nat × Nat × Crc))
deriving DecidableEq

/-- One iteration of the `for i in 0..a.len()` loop: the
`match (a.seen > 0, b.seen > 0)` with `(false, false)` ignored,
`(true, true)` compared, and a mixed pair a fatal `bail!`. -/
def compare_step (a b : Sums) (acc : CompareCounts) (i : Nat) :
    Except Str CompareCounts :=
  match decide (0 < a.seen.get_copy i), decide (0 < b.seen.get_copy i) with
  | false, false =>
    .ok { acc with num_ignored_counted := acc.num_ignored_counted + 1 }
  | true, true =>
    let alen_and_sum := a.sums.get_copy i
    let blen_and_sum := b.sums.get_copy i
    if alen_and_sum = blen_and_sum then
      .ok { acc with num_same := acc.num_same + 1 }
    else
      let divergences := acc.divergences ++ [(i + 1, alen_and_sum, blen_and_sum)]
      .ok { acc with num_errors := acc.num_errors + 1, divergences := divergences }
  | _, _ => .error ("bug?: query line was seen in only one log".data)

/-- The loop body folded over the index list. -/
def compare_go (a b : Sums) : CompareCounts → List Nat → Except Str CompareCounts
  | acc, [] => .ok acc
  | acc, i :: rest =>
    match compare_step a b acc i with
    | .error e => .error e
    | .ok acc2 => compare_go a b acc2 rest

/-- The `Compare` comparison: `bail!` when the two logs' `Sums` have
differing lengths, else run the per-reference loop. -/
def compare_loop (a b : Sums) : Except Str CompareCounts :=
  if a.len ≠ b.len then
    .error ("the logs use differing numbers of query entries".data)
  else
    compare_go a b
      { num_errors := 0, num_same := 0, num_ignored_counted := 0,
        divergences := [] }
      (List.range a.len)

/-- Whether an `Except` value is the `error` case. -/
def isError {ε α : Type} : Except ε α → Bool
  | .error _ => true
  | .ok _ => false

theorem compare_step_isError_of_mismatch (a b : Sums) (i : Nat)
    (hm : ¬(0 < a.seen.get_copy i ↔ 0 < b.seen.get_copy i))
    (acc : CompareCounts) : isError (compare_step a b acc i) = true := by
  rw [compare_step]
  cases ha : decide (0 < a.seen.get_copy i) <;>
    cases hb : decide (0 < b.seen.get_copy i)
  · exact absurd ⟨fun h => absurd h (by simpa using ha),
      fun h => absurd h (by simpa using hb)⟩ hm
  · simp [isError]
  · simp [isError]
  · exact absurd ⟨fun _ => by simpa using hb, fun _ => by simpa using ha⟩ hm

theorem compare_go_isError (a b : Sums) (x : Nat) (l : List Nat) (hx : x ∈ l)
    (h : ∀ acc, isError (compare_step a b acc x) = true) :
    ∀ acc, isError (compare_go a b acc l) = true := by
  induction l with
  | nil => exact absurd hx (List.not_mem_nil x)
  | cons y rest ih =>
    intro acc
    rw [compare_go]
    cases hstep : compare_step a b acc y with
    | error e => rfl
    | ok acc2 =>
      rcases List.mem_cons.mp hx with hxy | hxr
      · subst hxy
        have hcontra := h acc
        rw [hstep] at hcontra
        simp [isError] at hcontra
      · show isError (compare_go a b acc2 rest) = true
        exact ih hxr acc2

theorem compare_loop_isError_of_mismatch (a b : Sums) (i : Nat)
    (ha0 : a.seen.fill = 0) (hb0 : b.seen.fill = 0)
    (hwa : a.wf) (hwb : b.wf)
    (hm : ¬(0 < a.seen.get_copy i ↔ 0 < b.seen.get_copy i)) :
    isError (compare_loop a b) = true := by
  rw [compare_loop]
  by_cases hlen : a.len = b.len
  · rw [if_neg (by omega)]
    have halen : a.len = a.sums.len := rfl
    have hblen : b.len = b.sums.len := rfl
    have hi : i < a.len := by
      by_cases hai : 0 < a.seen.get_copy i
      · have hlt := AutoVec.lt_len_of_get_copy_ne_fill a.seen i (by omega)
        rw [Sums.wf] at hwa
        omega
      · have hbi : 0 < b.seen.get_copy i := by
          by_contra hb
          exact hm ⟨fun h => absurd h hai, fun h => absurd h hb⟩
        have hlt := AutoVec.lt_len_of_get_copy_ne_fill b.seen i (by omega)
        rw [Sums.wf] at hwb
        omega
    exact compare_go_isError a b i (List.range a.len) (List.mem_range.mpr hi)
      (compare_step_isError_of_mismatch a b i hm) _
  · rw [if_pos hlen]
    rfl

/-- C5: when, after ignore filtering, some `QueryReference` has a
successful occurrence in exactly one of the two compared logs, the
`Compare` command aborts with a fatal error (an `Except.error`, i.e. a
`bail!` propagated out of `main`); comparison does not proceed and no
defect or count is produced (the error value carries none). -/
theorem claim_C5 {τ φ : Type} (ignore : QueryReference → Bool)
    (rowsA rowsB : List (LogCsvRecord τ φ)) (i : Nat)
    (hm : ¬(okTriples i (rowsA.filter (fun r => !ignore r.query_reference)) ≠ [] ↔
            okTriples i (rowsB.filter (fun r => !ignore r.query_reference)) ≠ [])) :
    isError (compare_loop (sums_from_file ignore rowsA).2
      (sums_from_file ignore rowsB).2) = true := by
  have ha := sumsRun_spec (rowsA.filter (fun r => !ignore r.query_reference))
  have hb := sumsRun_spec (rowsB.filter (fun r => !ignore r.query_reference))
  apply compare_loop_isError_of_mismatch _ _ i ha.2.2.2.2.2.1 hb.2.2.2.2.2.1
    ha.2.2.2.2.2.2 hb.2.2.2.2.2.2
  intro hiff
  apply hm
  have hA := ha.2.1 i
  have hB := hb.2.1 i
  constructor
  · intro hne
    have : 0 < (okTriples i (rowsA.filter
        (fun r => !ignore r.query_reference))).length := by
      cases hokA : okTriples i (rowsA.filter (fun r => !ignore r.query_reference))
      · exact absurd hokA hne
      · simp
    have : 0 < (okTriples i (rowsB.filter
        (fun r => !ignore r.query_reference))).length := by
      have := hiff.mp (by rw [hA]; omega)
      rw [hB] at this
      omega
    intro hnil
    rw [hnil] at this
    simp at this
  · intro hne
    have : 0 < (okTriples i (rowsB.filter
        (fun r => !ignore r.query_reference))).length := by
      cases hokB : okTriples i (rowsB.filter (fun r => !ignore r.query_reference))
      · exact absurd hokB hne
      · simp
    have : 0 < (okTriples i (rowsA.filter
        (fun r => !ignore r.query_reference))).length := by
      have := hiff.mpr (by rw [hB]; omega)
      rw [hA] at this
      omega
    intro hnil
    rw [hnil] at this
    simp at this

/-- A successful log record over trivial time scalars, for concrete
scenarios. -/
def mkOkRecord (i rep : Nat) (t : Nat × Nat × Crc) : LogCsvRecord Unit Unit :=
  { line := ⟨i⟩, repetition := rep, start := (), stop := (), d := (),
    result := LogCsvResult.Ok t.1 t.2.1 t.2.2 }

/-- An errored log record over trivial time scalars. -/
def mkErrRecord (i rep : Nat) (e : Str) : LogCsvRecord Unit Unit :=
  { line := ⟨i⟩, repetition := rep, start := (), stop := (), d := (),
    result := LogCsvResult.Err e }

theorem mkOkRecord_slc (i rep : Nat) (t : Nat × Nat × Crc) :
    (mkOkRecord i rep t).status_length_crc = some t := by
  simp [mkOkRecord, LogCsvRecord.status_length_crc]

/-- Witness for C5: the first log saw line 1 succeed, the second log is
empty; `Compare` bails out. -/
theorem claim_C5_witness :
    isError (compare_loop
      (sums_from_file (fun _ => false) [mkOkRecord 0 0 (200, 3, ⟨7⟩)]).2
      (sums_from_file (fun _ => false) ([] : List (LogCsvRecord Unit Unit))).2)
      = true :=
  claim_C5 (fun _ => false) [mkOkRecord 0 0 (200, 3, ⟨7⟩)] [] 0 (by decide)

theorem sumsRun_singleton (rep : Nat) (t : Nat × Nat × Crc) :
    sumsRun [mkOkRecord 0 rep t] =
      { sums := ⟨sumsFill, [t]⟩, seen := ⟨0, [1]⟩,
        errors := [], successes := 0 } := by
  show Sums.add Sums.new (mkOkRecord 0 rep t) = _
  rw [Sums.add_first Sums.new (mkOkRecord 0 rep t) t (mkOkRecord_slc 0 rep t)
    (by rw [AutoVec.saturating_inc_snd]
        show (Sums.new.seen.get_copy 0 + 1) ⊓ 255 ≤ 1
        decide)]
  rfl

theorem compare_loop_single (rep1 rep2 : Nat) (t1 t2 : Nat × Nat × Crc)
    (hne : t1 ≠ t2) :
    compare_loop (sumsRun [mkOkRecord 0 rep1 t1])
        (sumsRun [mkOkRecord 0 rep2 t2]) =
      .ok { num_errors := 1, num_same := 0, num_ignored_counted := 0,
            divergences := [(1, t1, t2)] } := by
  rw [sumsRun_singleton rep1 t1, sumsRun_singleton rep2 t2]
  rw [compare_loop]
  rw [if_neg (by intro h; exact h rfl)]
  show compare_go _ _ _ [0] = _
  rw [compare_go]
  have hstep : compare_step
      { sums := ⟨sumsFill, [t1]⟩, seen := ⟨0, [1]⟩, errors := [], successes := 0 }
      { sums := ⟨sumsFill, [t2]⟩, seen := ⟨0, [1]⟩, errors := [], successes := 0 }
      { num_errors := 0, num_same := 0, num_ignored_counted := 0,
        divergences := [] } 0 =
      .ok { num_errors := 1, num_same := 0, num_ignored_counted := 0,
            divergences := [(1, t1, t2)] } := by
    rw [compare_step]
    show (if t1 = t2 then _ else _) = _
    rw [if_neg hne]
    rfl
  rw [hstep]
  rfl

/-- C9: the reconciler's equality test — both for a later occurrence of
a reference within one run and for comparing the two runs'
first-occurrence tables — compares the full `(status, length, crc)`
triple, not the checksum alone: two records with equal checksums
(`hcrc`) but differing status or length (`hne`) produce an intra-run
`NonMatchingCrc` defect (not a confirmed-stable count) and a cross-run
divergence row. -/
theorem claim_C9 (i rep1 rep2 : Nat) (t1 t2 : Nat × Nat × Crc)
    (hcrc : t1.2.2 = t2.2.2) (hne : t1 ≠ t2) :
    (sumsRun [mkOkRecord i rep1 t1, mkOkRecord i rep2 t2]).errors =
        [{ reference := { query_reference := ⟨i⟩, repetition := rep2 },
           crc := t2 }] ∧
      (sumsRun [mkOkRecord i rep1 t1, mkOkRecord i rep2 t2]).successes = 0 ∧
      compare_loop (sumsRun [mkOkRecord 0 rep1 t1])
          (sumsRun [mkOkRecord 0 rep2 t2]) =
        .ok { num_errors := 1, num_same := 0, num_ignored_counted := 0,
              divergences := [(1, t1, t2)] } := by
  have hne' : t2 ≠ t1 := fun h => hne h.symm
  have hspec := sumsRun_spec [mkOkRecord i rep1 t1, mkOkRecord i rep2 t2]
  refine ⟨?_, ?_, compare_loop_single rep1 rep2 t1 t2 hne⟩
  · rw [hspec.2.2.2.1]
    have h1 : addDefects [] (mkOkRecord i rep1 t1) = [] := by
      simp [addDefects, mkOkRecord_slc, okTriples]
    have h2 : addDefects [mkOkRecord i rep1 t1] (mkOkRecord i rep2 t2) =
        [{ reference := { query_reference := ⟨i⟩, repetition := rep2 },
           crc := t2 }] := by
      simp [addDefects, mkOkRecord_slc, okTriples, mkOkRecord,
        LogCsvRecord.status_length_crc, LogCsvRecord.query_reference,
        LogCsvRecord.query_reference_with_repetition, hne']
    simp [defectsSpec, h1, h2]
  · rw [hspec.2.2.1]
    have h1 : addMatches [] (mkOkRecord i rep1 t1) = 0 := by
      simp [addMatches, mkOkRecord_slc, okTriples]
    have h2 : addMatches [mkOkRecord i rep1 t1] (mkOkRecord i rep2 t2) = 0 := by
      simp [addMatches, mkOkRecord_slc, okTriples, mkOkRecord,
        LogCsvRecord.status_length_crc, LogCsvRecord.query_reference, hne']
    simp [matchesSpec, h1, h2]

/-- Witness for C9: status 200 vs 404 with identical checksum and
length. -/
theorem claim_C9_witness :
    (sumsRun [mkOkRecord 2 0 (200, 5, ⟨7⟩), mkOkRecord 2 1 (404, 5, ⟨7⟩)]).errors =
        [{ reference := { query_reference := ⟨2⟩, repetition := 1 },
           crc := (404, 5, ⟨7⟩) }] ∧
      compare_loop (sumsRun [mkOkRecord 0 0 (200, 5, ⟨7⟩)])
          (sumsRun [mkOkRecord 0 1 (404, 5, ⟨7⟩)]) =
        .ok { num_errors := 1, num_same := 0, num_ignored_counted := 0,
              divergences := [(1, (200, 5, ⟨7⟩), (404, 5, ⟨7⟩))] } :=
  have h := claim_C9 2 0 1 (200, 5, ⟨7⟩) (404, 5, ⟨7⟩) (by decide) (by decide)
  ⟨h.1, (claim_C9 0 0 1 (200, 5, ⟨7⟩) (404, 5, ⟨7⟩) (by decide) (by decide)).2.2⟩

/-- C10: a log record whose outcome is `Err` is invisible to the
reconciler's per-log pass — `Sums::add` returns the state unchanged, so
it neither sets the reference's first-table entry nor increments its
seen-counter nor produces a defect; a `QueryReference` all of whose
non-ignored records are errors keeps seen-count 0 (treated as absent
from that log), and if the other log has a successful record for it,
the `Compare` loop aborts with the fatal structural-mismatch error. -/
theorem claim_C10 {τ φ : Type} :
    (∀ (s : Sums) (r : LogCsvRecord τ φ) (e : Str),
      r.result = LogCsvResult.Err e → Sums.add s r = s) ∧
    ∀ (rs : List (LogCsvRecord τ φ)) (i : Nat),
      (∀ r ∈ rs, r.query_reference.query_index = i →
        ∃ e, r.result = LogCsvResult.Err e) →
      (sumsRun rs).seen.get_copy i = 0 ∧
        ∀ rsB : List (LogCsvRecord τ φ), okTriples i rsB ≠ [] →
          isError (compare_loop (sumsRun rs) (sumsRun rsB)) = true := by
  constructor
  · intro s r e he
    apply Sums.add_err
    rw [LogCsvRecord.status_length_crc, he]
  · intro rs i hall
    have hok : okTriples i rs = [] := by
      rw [okTriples, List.filterMap_eq_nil_iff]
      intro r hr
      by_cases hri : r.query_reference.query_index = i
      · obtain ⟨e, he⟩ := hall r hr hri
        rw [if_pos hri, LogCsvRecord.status_length_crc, he]
      · rw [if_neg hri]
    have ha := sumsRun_spec rs
    have hseen : (sumsRun rs).seen.get_copy i = 0 := by
      rw [ha.2.1 i, hok]
      simp
    refine ⟨hseen, ?_⟩
    intro rsB hB
    have hb := sumsRun_spec rsB
    apply compare_loop_isError_of_mismatch _ _ i ha.2.2.2.2.2.1 hb.2.2.2.2.2.1
      ha.2.2.2.2.2.2 hb.2.2.2.2.2.2
    intro hiff
    have h1 : 0 < (sumsRun rsB).seen.get_copy i := by
      rw [hb.2.1 i]
      cases hc : okTriples i rsB with
      | nil => exact absurd hc hB
      | cons x xs =>
        simp only [List.length_cons]
        omega
    have h0 := hiff.mpr h1
    omega

/-- Witness for C10: an `Err`-only reference versus a log where it
succeeded. -/
theorem claim_C10_witness :
    Sums.add Sums.new (mkErrRecord 0 0 ['b']) = Sums.new ∧
      (sumsRun [mkErrRecord 0 0 ['b']]).seen.get_copy 0 = 0 ∧
      isError (compare_loop (sumsRun [mkErrRecord 0 0 ['b']])
        (sumsRun [mkOkRecord 0 0 (200, 1, ⟨5⟩)])) = true := by
  have h := claim_C10 (τ := Unit) (φ := Unit)
  have hall : ∀ r ∈ [mkErrRecord 0 0 ['b']],
      r.query_reference.query_index = 0 → ∃ e, r.result = LogCsvResult.Err e := by
    intro r hr _
    simp only [List.mem_singleton] at hr
    subst hr
    exact ⟨['b'], rfl⟩
  refine ⟨h.1 Sums.new (mkErrRecord 0 0 ['b']) ['b'] rfl, ?_, ?_⟩
  · exact (h.2 [mkErrRecord 0 0 ['b']] 0 hall).1
  · exact (h.2 [mkErrRecord 0 0 ['b']] 0 hall).2
      [mkOkRecord 0 0 (200, 1, ⟨5⟩)] (by decide)

/-! ## RunQuery (`src/bin/api-query.rs`) -/

/-- `enum OutputMode` (the `Outdir` path payload is irrelevant to the
embedded behaviour). -/
inductive OutputMode where
  | Print
  | Outdir
  | Drop
deriving DecidableEq

/-- `OutputMode::is_stdout`. -/
def OutputMode.is_stdout : OutputMode → Bool
  | OutputMode.Print => true
  | OutputMode.Outdir => false
  | OutputMode.Drop => false

/-- `OutputMode::is_drop`. -/
def OutputMode.is_drop : OutputMode → Bool
  | OutputMode.Print => false
  | OutputMode.Outdir => false
  | OutputMode.Drop => true

/-- `struct RunQueryResult`: HTTP status, byte size of the output, and
the optional checksum. -/
structure RunQueryResult where
  status : Nat
  outsize : Nat
  crc : Option Crc
deriving DecidableEq

/-- The post-completion file cleanup performed in the out-dir branch of
`RunQuery::run`: delete an empty status-200 artifact, else rename it
with the status code as a suffix. -/
inductive FileAction where
  | noFile
  | removedEmpty
  | renamedWithStatus (status : Nat)
deriving DecidableEq

/-- Models the external `crc_fast` CRC-64 digest: the initial state
(`MyCrc::new`). -/
def MyCrc.new : Nat := 0

/-- Models the external `crc_fast` digest's incremental `add` over one
chunk; the concrete mixing function is external to the repository and
irrelevant to every claim — only the incremental fold structure is. -/
def MyCrc.add (state : Nat) (bytes : List Nat) : Nat :=
  bytes.foldl (fun a b => (a * 257 + b + 1) % U64) state

/-- `MyCrc::finalize`. -/
def MyCrc.finalize (state : Nat) : Crc := ⟨state % U64⟩

/-- `RunQuery::run`, over the response's `status` and streamed `chunks`
(the HTTP transport is external).  The drop branch counts bytes into
the outer `outsize` and feeds the digest; the print/out-dir branch
re-binds `let mut outsize = 0`, shadowing the outer binding — the
shadowed inner count (`outsize_inner` here) is used only for the file
cleanup, the returned `outsize` is the outer binding, still 0, and the
digest is never fed in that branch. -/
def RunQuery.run (output_mode : OutputMode) (status : Nat)
    (chunks : List (List Nat)) (calculate_crc : Bool) :
    RunQueryResult × FileAction :=
  let digest : Option Nat := if calculate_crc then some MyCrc.new else none
  let outsize : Nat := 0
  if output_mode.is_drop then
    let folded := chunks.foldl
      (fun acc bytes =>
        (acc.1 + bytes.length, acc.2.map (fun d => MyCrc.add d bytes)))
      (outsize, digest)
    ({ status, outsize := folded.1, crc := folded.2.map MyCrc.finalize },
     FileAction.noFile)
  else
    let outsize_inner : Nat :=
      chunks.foldl (fun acc bytes => acc + bytes.length) 0
    let action : FileAction :=
      match output_mode with
      | OutputMode.Outdir =>
        if outsize_inner = 0 ∧ status = 200 then FileAction.removedEmpty
        else FileAction.renamedWithStatus status
      | _ => FileAction.noFile
    ({ status, outsize := outsize, crc := digest.map MyCrc.finalize },
     action)

/-- C2 is wrong on the code: with stdout or out-dir output (any
non-drop disposition), `RunQuery::run` returns `outsize = 0` no matter
how many bytes were streamed, because the inner `let mut outsize = 0`
shadows the returned outer binding — contradicting the function's own
doc comment ("Returns the HTTP status and the size of the output (even
if the output is dropped)"); the drop disposition returns the true
byte count.  Evaluated at a 3-byte response. -/
theorem claim_C2 :
    (RunQuery.run OutputMode.Print 200 [[104, 105, 33]] true).1.outsize = 0 ∧
      (RunQuery.run OutputMode.Outdir 200 [[104, 105, 33]] true).1.outsize = 0 ∧
      (RunQuery.run OutputMode.Drop 200 [[104, 105, 33]] true).1.outsize = 3 ∧
      (RunQuery.run OutputMode.Outdir 200 [[104, 105, 33]] true).2 =
        FileAction.renamedWithStatus 200 := by
  decide

/-! ## The error budget (`await_one_task` in `main`, `Command::Iter`) -/

/-- A completed task's outcome as `await_one_task` sees it: a response
with some HTTP status (tallied, never an error), or a request-level
hard failure with its message. -/
inductive TaskOutcome where
  | ok (status : Nat)
  | err (message : Str)
deriving DecidableEq

/-- The mutable state threaded through `await_one_task`: the hard-error
count, the collected errors (when `--collect-errors`; the `SystemTime`
stamps are presentation only and omitted), and the per-status tally
(models the `BTreeMap<StatusCode, usize>`). -/
structure IterState where
  num_errors : Nat
  errors : List Str
  status_tally : Nat → Nat

/-- The state before the first completion. -/
def IterState.init : IterState :=
  { num_errors := 0, errors := [], status_tally := fun _ => 0 }

/-- The `status_tally.entry(status)` occupied/vacant increment. -/
def IterState.tally_ok (st : IterState) (status : Nat) : IterState :=
  { st with
    status_tally :=
      fun s => if s = status then st.status_tally s + 1 else st.status_tally s }

/-- The `Err` arm: count the hard error and, with `--collect-errors`,
append it (otherwise it is printed immediately and not kept). -/
def IterState.add_err (collect_errors : Bool) (st : IterState) (e : Str) :
    IterState :=
  { st with
    num_errors := st.num_errors + 1
    errors := if collect_errors then st.errors ++ [e] else st.errors }

/-- `await_one_task`'s accounting for one completed task, ending with
the `if num_errors > max_errors { bail! }` check that surfaces the
accumulated errors. -/
def await_one_task (collect_errors : Bool) (max_errors : Nat)
    (st : IterState) (outcome : TaskOutcome) : Except (List Str) IterState :=
  let st2 :=
    match outcome with
    | TaskOutcome.ok status => st.tally_ok status
    | TaskOutcome.err e => IterState.add_err collect_errors st e
  if st2.num_errors > max_errors then Except.error st2.errors
  else Except.ok st2

/-- The driver loop's sequence of `await_one_task` calls over the
completion stream (submission interleaving does not touch this
state). -/
def run_iter (collect_errors : Bool) (max_errors : Nat) :
    IterState → List TaskOutcome → Except (List Str) IterState
  | st, [] => Except.ok st
  | st, o :: rest =>
    match await_one_task collect_errors max_errors st o with
    | Except.error e => Except.error e
    | Except.ok st2 => run_iter collect_errors max_errors st2 rest

/-- The number of hard errors in a completion stream. -/
def errCount (outs : List TaskOutcome) : Nat :=
  outs.countP (fun o =>
    match o with
    | TaskOutcome.err _ => true
    | _ => false)

/-- The hard-error messages of a completion stream, in order. -/
def errMsgs (outs : List TaskOutcome) : List Str :=
  outs.filterMap (fun o =>
    match o with
    | TaskOutcome.err e => some e
    | _ => none)

/-- How often status `s` occurred among the successful responses. -/
def okCount (s : Nat) (outs : List TaskOutcome) : Nat :=
  outs.countP (fun o =>
    match o with
    | TaskOutcome.ok status => decide (status = s)
    | _ => false)

theorem run_iter_spec (ce : Bool) (m : Nat) (outs : List TaskOutcome) :
    ∀ st0 : IterState, st0.num_errors ≤ m →
      (isError (run_iter ce m st0 outs) = true ↔
        m < st0.num_errors + errCount outs) ∧
      (∀ st, run_iter ce m st0 outs = Except.ok st →
        st.num_errors = st0.num_errors + errCount outs ∧
        (∀ s, st.status_tally s = st0.status_tally s + okCount s outs) ∧
        st.errors = st0.errors ++ (if ce then errMsgs outs else [])) ∧
      (∀ l, run_iter ce m st0 outs = Except.error l →
        l = st0.errors ++
          (if ce then (errMsgs outs).take (m + 1 - st0.num_errors) else [])) := by
  induction outs with
  | nil =>
    intro st0 h0
    refine ⟨?_, ?_, ?_⟩
    · constructor
      · intro h
        simp [run_iter, isError] at h
      · intro h
        have hc : errCount ([] : List TaskOutcome) = 0 := rfl
        rw [hc] at h
        exact absurd h (by omega)
    · intro st hst
      have : st0 = st := by
        simpa [run_iter] using hst
      subst this
      refine ⟨by simp [errCount], fun s => by simp [okCount],
        by cases ce <;> simp [errMsgs]⟩
    · intro l hl
      simp [run_iter] at hl
  | cons o rest ih =>
    intro st0 h0
    cases o with
    | ok status =>
      have hstep : await_one_task ce m st0 (TaskOutcome.ok status) =
          Except.ok (st0.tally_ok status) := by
        rw [await_one_task]
        rw [if_neg (by simp [IterState.tally_ok]; omega)]
      have hrunOk : run_iter ce m st0 (TaskOutcome.ok status :: rest) =
          run_iter ce m (st0.tally_ok status) rest := by
        rw [run_iter, hstep]
      have hnum : (st0.tally_ok status).num_errors = st0.num_errors := rfl
      have hih := ih (st0.tally_ok status) (by rw [hnum]; exact h0)
      have hec : errCount (TaskOutcome.ok status :: rest) = errCount rest := by
        simp [errCount]
      have hem : errMsgs (TaskOutcome.ok status :: rest) = errMsgs rest := by
        simp [errMsgs]
      refine ⟨?_, ?_, ?_⟩
      · rw [hrunOk, hec, ← hnum]
        exact hih.1
      · intro st hst
        rw [hrunOk] at hst
        obtain ⟨ha, hb, hc⟩ := hih.2.1 st hst
        refine ⟨by rw [ha, hnum, hec], ?_, ?_⟩
        · intro s
          rw [hb s]
          show (if s = status then st0.status_tally s + 1 else st0.status_tally s)
              + okCount s rest = st0.status_tally s + okCount s (TaskOutcome.ok status :: rest)
          by_cases hs : s = status
          · subst hs
            rw [if_pos rfl]
            have : okCount s (TaskOutcome.ok s :: rest) = okCount s rest + 1 := by
              simp [okCount, List.countP_cons]
            omega
          · rw [if_neg hs]
            have : okCount s (TaskOutcome.ok status :: rest) = okCount s rest := by
              simp [okCount, List.countP_cons]
              intro h
              exact absurd h.symm hs
            omega
        · rw [hc, hem]
          rfl
      · intro l hl
        rw [hrunOk] at hl
        have := hih.2.2 l hl
        rw [this, hem, hnum]
        rfl
    | err e =>
      have hnum : (IterState.add_err ce st0 e).num_errors = st0.num_errors + 1 :=
        rfl
      have herr : (IterState.add_err ce st0 e).errors =
          (if ce then st0.errors ++ [e] else st0.errors) := rfl
      have hec : errCount (TaskOutcome.err e :: rest) = errCount rest + 1 := by
        simp [errCount, List.countP_cons]
      have hem : errMsgs (TaskOutcome.err e :: rest) = e :: errMsgs rest := by
        simp [errMsgs]
      by_cases habort : st0.num_errors + 1 > m
      · have hm0 : st0.num_errors = m := by omega
        have hstep : await_one_task ce m st0 (TaskOutcome.err e) =
            Except.error (IterState.add_err ce st0 e).errors := by
          rw [await_one_task]
          rw [if_pos (by rw [hnum]; omega)]
        have hrun : run_iter ce m st0 (TaskOutcome.err e :: rest) =
            Except.error (IterState.add_err ce st0 e).errors := by
          rw [run_iter, hstep]
        refine ⟨?_, ?_, ?_⟩
        · rw [hrun]
          constructor
          · intro _
            rw [hec]
            omega
          · intro _
            rfl
        · intro st hst
          rw [hrun] at hst
          exact absurd hst (by simp)
        · intro l hl
          rw [hrun] at hl
          have hl2 : l = (IterState.add_err ce st0 e).errors := by
            injection hl.symm
          rw [hl2, herr, hem, hm0]
          have hone : m + 1 - m = 1 := by omega
          rw [hone]
          cases ce <;> simp
      · have hle : (IterState.add_err ce st0 e).num_errors ≤ m := by
          rw [hnum]; omega
        have hstep : await_one_task ce m st0 (TaskOutcome.err e) =
            Except.ok (IterState.add_err ce st0 e) := by
          rw [await_one_task]
          rw [if_neg (by rw [hnum]; omega)]
        have hrun : run_iter ce m st0 (TaskOutcome.err e :: rest) =
            run_iter ce m (IterState.add_err ce st0 e) rest := by
          rw [run_iter, hstep]
        have hih := ih (IterState.add_err ce st0 e) hle
        refine ⟨?_, ?_, ?_⟩
        · rw [hrun, hec]
          rw [hih.1, hnum]
          omega
        · intro st hst
          rw [hrun] at hst
          obtain ⟨ha, hb, hc⟩ := hih.2.1 st hst
          refine ⟨by rw [ha, hnum, hec]; omega, ?_, ?_⟩
          · intro s
            rw [hb s]
            have : okCount s (TaskOutcome.err e :: rest) = okCount s rest := by
              simp [okCount, List.countP_cons]
            rw [this]
            rfl
          · rw [hc, herr, hem]
            cases ce <;> simp
        · intro l hl
          rw [hrun] at hl
          have := hih.2.2 l hl
          rw [this, herr, hem, hnum]
          have htake : m + 1 - st0.num_errors = (m + 1 - (st0.num_errors + 1)) + 1 := by
            omega
          rw [htake]
          cases ce <;> simp

/-- C6: each request-level hard failure increments the error counter
and the run aborts exactly when that counter exceeds the configured
`--max-errors` budget `m`, surfacing the accumulated errors (with
`--collect-errors`, the abort value is exactly the first `m + 1` hard
errors' messages); a run whose hard-error count never exceeds the
budget processes the whole completion stream and terminates normally
with `num_errors` equal to the hard-error count; responses with any
HTTP status — 2xx or not — are tallied by status code and never count
against the budget. -/
theorem claim_C6 (ce : Bool) (m : Nat) (outs : List TaskOutcome) :
    (isError (run_iter ce m IterState.init outs) = true ↔ m < errCount outs) ∧
      (∀ st, run_iter ce m IterState.init outs = Except.ok st →
        st.num_errors = errCount outs ∧
        (∀ s, st.status_tally s = okCount s outs)) ∧
      (∀ l, run_iter ce m IterState.init outs = Except.error l →
        l = (if ce then (errMsgs outs).take (m + 1) else [])) := by
  have h := run_iter_spec ce m outs IterState.init (by simp [IterState.init])
  refine ⟨by simpa [IterState.init] using h.1, ?_, ?_⟩
  · intro st hst
    obtain ⟨ha, hb, _⟩ := h.2.1 st hst
    exact ⟨by simpa [IterState.init] using ha,
      fun s => by simpa [IterState.init] using hb s⟩
  · intro l hl
    have := h.2.2 l hl
    simpa [IterState.init] using this

/-- Witness for C6: budget 1 with 3 hard failures aborts surfacing the
first two; budget 1 with 1 failure completes with the full tally. -/
theorem claim_C6_witness :
    isError (run_iter true 1 IterState.init
      [TaskOutcome.ok 200, TaskOutcome.err ['a'], TaskOutcome.err ['b'],
       TaskOutcome.err ['c']]) = true ∧
      (Except.map (fun st => (st.num_errors, st.status_tally 404, st.status_tally 200))
        (run_iter false 1 IterState.init
          [TaskOutcome.ok 404, TaskOutcome.err ['a']]) =
        Except.ok (1, 1, 0)) :=
  ⟨(claim_C6 true 1 [TaskOutcome.ok 200, TaskOutcome.err ['a'],
      TaskOutcome.err ['b'], TaskOutcome.err ['c']]).1.mpr (by decide),
   by rfl⟩

/-! ## The log reader (`LogCsvReader` in `src/log_csv.rs`) -/

/-- `struct LogCsvReader`'s state relevant here: the log path and the
`line0` row counter (initialized to 0 in `open`). -/
structure LogCsvReader where
  path : Str
  line0 : Nat
deriving DecidableEq

/-- `LogCsvReader::open`. -/
def LogCsvReader.open (path : Str) : LogCsvReader :=
  { path := path, line0 := 0 }

/-- The column-count error text of `LogCsvReader::next`:
`"invalid number of columns: expected {}, got {} at {:?}:{}"` with the
row address `line0 + 1`. -/
def invalid_columns_msg (expected got : Nat) (path : Str) (line0 : Nat) : Str :=
  "invalid number of columns: expected ".data ++ natToDigits expected ++
    ", got ".data ++ natToDigits got ++ " at ".data ++ path ++ ":".data ++
    natToDigits (line0 + 1)

/-- `LogCsvReader::next` on one data row (the `csv` crate's record
reading and unquoting is external; a row arrives as its field list):
a row of exactly `NUM_COLS` fields is parsed, any other width produces
the row-addressed column-count error.  Faithfully to the source, the
returned reader state carries `line0` unchanged — `next` never
advances it. -/
def LogCsvReader.next {τ φ : Type} (r : LogCsvReader)
    (parseT : Str → Option τ) (parseF : Str → Option φ) (row : List Str) :
    Except Str (LogCsvRecord τ φ) × LogCsvReader :=
  if row.length = LogCsvNormalFormat.NUM_COLS then
    (LogCsvNormalFormat.parse_row parseT parseF row, r)
  else
    (Except.error
      (invalid_columns_msg LogCsvNormalFormat.NUM_COLS row.length r.path r.line0),
     r)

/-- Iterating the reader over a whole log file's data rows. -/
def LogCsvReader.read_all {τ φ : Type} (parseT : Str → Option τ)
    (parseF : Str → Option φ) :
    LogCsvReader → List (List Str) → List (Except Str (LogCsvRecord τ φ))
  | _, [] => []
  | r, row :: rest =>
    let res := r.next parseT parseF row
    res.1 :: LogCsvReader.read_all parseT parseF res.2 rest

/-- C7 is wrong on the code: a row with the wrong number of columns
does produce a parse error naming the log file and carrying a row
address, but `line0` is never incremented, so the address is always
`1` regardless of which row offends.  Evaluated on a log whose second
data row has 9 columns: the reported message is the one for `line0 = 0`
(address `:1`), which differs from the message carrying the offending
row's true index (`line0 = 1`, address `:2`); and `next` returns every
reader state unchanged. -/
theorem claim_C7 :
    (LogCsvReader.read_all (τ := Nat) (φ := Nat) natParse natParse
        (LogCsvReader.open "log.csv".data)
        [["1".data, "0".data, "1".data, "2".data, "3".data, "Err".data,
          "".data, "".data, "".data, "boom".data],
         ["1".data, "0".data, "1".data, "2".data, "3".data, "Err".data,
          "".data, "".data, "boom".data]] =
      [Except.ok { line := ⟨0⟩, repetition := 0, start := 1, stop := 2, d := 3,
                   result := LogCsvResult.Err "boom".data },
       Except.error (invalid_columns_msg 10 9 "log.csv".data 0)]) ∧
      invalid_columns_msg 10 9 "log.csv".data 0 ≠
        invalid_columns_msg 10 9 "log.csv".data 1 ∧
      ∀ (r : LogCsvReader) (row : List Str),
        (LogCsvReader.next (τ := Nat) (φ := Nat) r natParse natParse row).2 = r := by
  refine ⟨by rfl, ?_, ?_⟩
  · have hdig : natToDigits 1 ≠ natToDigits 2 := by
      intro h
      have h1 := natParse_natToDigits 1
      rw [h, natParse_natToDigits 2] at h1
      exact absurd h1 (by simp)
    intro heq
    apply hdig
    rw [invalid_columns_msg, invalid_columns_msg] at heq
    replace heq := List.append_cancel_left heq
    exact heq
  · intro r row
    rw [LogCsvReader.next]
    split <;> rfl

end ApiQuery
